import Mathlib

/-!
Verification development for the ControlCopier batch PDF filler
(source: src/src/App.js).

The program ingests a CSV (parsed into row records), fills one copy of a
fixed PDF template per row, and concatenates all filled pages into one
merged output document.  This file gives a shallow embedding of the core
pipeline:

* row records are ordered association lists from column name to string
  value (the data model of the spec, and the shape produced by the CSV
  parser with header mode);
* a document is its list of named text fields together with an abstract
  page list and a flattened flag;
* `fillPdfForm` embeds the function of the same name (lines 77-133):
  the five-entry static field mapping (lines 84-103), the States
  multi-column aggregation (lines 105-122), and flattening (line 129);
* `processCsvData` embeds the function of the same name (lines 34-74):
  state resets, the per-row loop with page-append and progress counting,
  and the catch branch.  The per-row pipeline (fill, reload, copy pages)
  is passed as a step function returning `Except`, reflecting that the
  awaited pdf-lib calls may throw;
* `onParseComplete` embeds the CSV parse completion callback
  (lines 179-186).

JavaScript string primitives used by the source (`includes`, `trim`,
truthiness, the `|| ""` default, `join(", ")`) are embedded as
structurally recursive functions over character lists so that all
definitions evaluate inside the kernel.
-/

/-- Tests whether the first character list is an initial segment of the
second; building block for substring search. -/
def leadMatch : List Char → List Char → Bool
  | [], _ => true
  | _ :: _, [] => false
  | a :: as, b :: bs => a == b && leadMatch as bs

/-- Tests whether `sub` occurs as a contiguous sublist of the second
argument. -/
def hasSubList (sub : List Char) : List Char → Bool
  | [] => leadMatch sub []
  | c :: t => leadMatch sub (c :: t) || hasSubList sub t

/-- Embedding of the JavaScript `s.includes(sub)` substring test used at
line 108 of App.js. -/
def jsIncludes (s sub : String) : Bool := hasSubList sub.data s.data

/-- Whitespace recognizer for the embedded `trim`; the whitespace
characters occurring in CSV string values. -/
def isWS (c : Char) : Bool := c == ' ' || c == '\t' || c == '\n' || c == '\r'

/-- Drops leading whitespace characters. -/
def dropLeadWS : List Char → List Char
  | [] => []
  | c :: t => if isWS c then dropLeadWS t else c :: t

/-- Embedding of the JavaScript `s.trim()` used at line 108 of App.js:
drop leading and trailing whitespace. -/
def jsTrim (s : String) : String :=
  String.mk ((dropLeadWS ((dropLeadWS s.data).reverse)).reverse)

/-- JavaScript truthiness of a string value: every string except the
empty one is truthy. -/
def jsTruthy (s : String) : Bool := s != ""

/-- Embedding of the `rowData[csvField] || ""` default at line 94 of
App.js: an absent or empty value degrades to the empty string. -/
def jsOrEmpty (o : Option String) : String :=
  match o with
  | none => ""
  | some v => if v == "" then "" else v

/-- A parsed CSV row: ordered column-name/value pairs.  Spec data model:
mapping from column name to scalar value, keys in the order the columns
are encountered. -/
abbrev RowRecord := List (String × String)

/-- Column access `rowData[k]`: the value of the first column named `k`,
or `none` when the column is absent. -/
def lookupCol (row : RowRecord) (k : String) : Option String :=
  (row.find? (fun p => p.1 == k)).map Prod.snd

/-- A loaded PDF document instance: named text fields with their current
values, an abstract page list, and the flattened flag. -/
structure Doc where
  fields : List (String × String)
  pages : List Nat
  flattened : Bool

/-- The fixed template: its named text fields (with initial values) and
its pages.  Loading the template bytes yields a fresh `Doc` with these
contents. -/
structure Template where
  fields : List (String × String)
  pages : List Nat

/-- Reads the current value of a named text field of a document
instance, `none` when the field does not exist. -/
def getFieldValue (d : Doc) (name : String) : Option String :=
  (d.fields.find? (fun p => p.1 == name)).map Prod.snd

/-- Pointwise update used by `setTextField`: replaces the value of the
pair whose name matches. -/
def updField (name val : String) (p : String × String) : String × String :=
  if p.1 == name then (p.1, val) else p

/-- Embedding of `form.getTextField(f)` followed by `setText(v)` (lines
96-99 and 116-119 of App.js): when the named field exists it is set and
the call succeeds (`true`); when it does not, `getTextField` throws,
which the source catches and turns into a warning, so the document is
returned unchanged with `false`. -/
def setTextField (d : Doc) (name val : String) : Doc × Bool :=
  if d.fields.any (fun p => p.1 == name) then
    ({ d with fields := d.fields.map (updField name val) }, true)
  else (d, false)

/-- The static five-entry correspondence table `fieldMappings` of lines
84-90 of App.js, in source order (CSV column, PDF field). -/
def fieldMappings : List (String × String) :=
  [("Client", "Client"),
   ("Prosystems #", "ProSystem\x27s #"),
   ("Tax Year", "Tax Year"),
   ("Return Type", "Return Type"),
   ("File Directory", "File Directory")]

/-- The filter predicate of lines 107-109 of App.js: a key is kept when
its name contains the substring States and its value is truthy with a
truthy trim. -/
def stateKeep (row : RowRecord) (k : String) : Bool :=
  jsIncludes k "States" &&
    (match lookupCol row k with
     | none => false
     | some v => jsTruthy v && jsTruthy (jsTrim v))

/-- `stateFields` of lines 107-109 of App.js: the keys of the row, in
order, kept by `stateKeep`. -/
def stateFields (row : RowRecord) : List String :=
  (row.map Prod.fst).filter (stateKeep row)

/-- One step of the `map(...).filter(Boolean)` of line 112 of App.js:
the looked-up value when it is truthy. -/
def stateValue? (row : RowRecord) (k : String) : Option String :=
  match lookupCol row k with
  | none => none
  | some v => if v == "" then none else some v

/-- `stateValues` of line 112 of App.js: the original (untrimmed) values
of the kept state columns. -/
def stateValues (row : RowRecord) : List String :=
  (stateFields row).filterMap (stateValue? row)

/-- Embedding of `arr.join(", ")`. -/
def joinComma : List String → String
  | [] => ""
  | [s] => s
  | s :: r => s ++ ", " ++ joinComma r

/-- `statesText` of line 113 of App.js. -/
def statesText (row : RowRecord) : String := joinComma (stateValues row)

/-- One iteration of the `Object.entries(fieldMappings).forEach` loop of
lines 93-103 of App.js: set the mapped PDF field to the defaulted row
value; on a missing field record the field name as a warning and
continue. -/
def fillMappedStep (row : RowRecord) (acc : Doc × List String)
    (cp : String × String) : Doc × List String :=
  let r := setTextField acc.1 cp.2 (jsOrEmpty (lookupCol row cp.1))
  (r.1, if r.2 then acc.2 else acc.2 ++ [cp.2])

/-- The whole mapped-fields phase (lines 93-103 of App.js) run on a
fresh instance of the template. -/
def mappedPhase (t : Template) (row : RowRecord) : Doc × List String :=
  fieldMappings.foldl (fillMappedStep row)
    ({ fields := t.fields, pages := t.pages, flattened := false }, [])

/-- Embedding of `fillPdfForm` (lines 77-133 of App.js): load a fresh
document instance from the template, run the mapped-fields phase, set
the States field to the aggregated text (recording a warning when the
field is missing), and flatten.  The result is the finalized document
instance together with the list of field-not-found warnings. -/
def fillPdfForm (t : Template) (row : RowRecord) : Doc × List String :=
  ({ (setTextField (mappedPhase t row).1 "States" (statesText row)).1 with
      flattened := true },
   if (setTextField (mappedPhase t row).1 "States" (statesText row)).2 then
     (mappedPhase t row).2
   else (mappedPhase t row).2 ++ ["States"])

/-- Outcome of the per-row loop of `processCsvData`: either all rows
merged (accumulated pages and final count) or a fatal failure with the
count of rows completed before it. -/
inductive BatchOutcome where
  | ok (pages : List Nat) (count : Nat)
  | failed (msg : String) (count : Nat)

/-- The `for (const row of csvData)` loop of lines 49-63 of App.js:
per row, run the pipeline step; on success append the pages of the
filled document to the merged document and increment the processed
count; on a thrown error the loop aborts with the error. -/
def runRows (step : RowRecord → Except String (List Nat)) :
    List RowRecord → List Nat → Nat → BatchOutcome
  | [], acc, n => .ok acc n
  | r :: rs, acc, n =>
    match step r with
    | .ok ps => runRows step rs (acc ++ ps) (n + 1)
    | .error e => .failed e n

/-- The concrete per-row pipeline of lines 51-60 of App.js in the pure
embedding: fill the template for the row and contribute the pages of
the filled document.  (The pure embedding of the pipeline never
throws.) -/
def rowStep (t : Template) (row : RowRecord) : Except String (List Nat) :=
  .ok (fillPdfForm t row).1.pages

/-- The component state touched by `processCsvData` (lines 8-12 of
App.js). -/
structure AppState where
  processing : Bool
  error : Option String
  completedPdf : Option (List Nat)
  templatePdf : Option Template
  processedCount : Nat

/-- Embedding of `processCsvData` (lines 34-74 of App.js): reset the
state, fail when the template is not loaded, run the per-row loop, and
either publish the merged pages or record the error; `processing` is
cleared on every path (the `finally`).  `step` is the per-row pipeline
(the awaited pdf-lib calls may throw, hence `Except`). -/
def processCsvData (step : Template → RowRecord → Except String (List Nat))
    (s : AppState) (csvData : List RowRecord) : AppState :=
  match s.templatePdf with
  | none =>
    { s with processing := false,
             error := some "PDF template not loaded. Please reload the page.",
             completedPdf := none, processedCount := 0 }
  | some t =>
    match runRows (step t) csvData [] 0 with
    | .ok pages n =>
      { s with processing := false, error := none,
               completedPdf := some pages, processedCount := n }
    | .failed e n =>
      { s with processing := false,
               error := some ("Failed to process CSV data: " ++ e),
               completedPdf := none, processedCount := n }

/-- Result object handed to the `complete` callback by the CSV parser:
parse errors and parsed rows. -/
structure ParseResults where
  errors : List String
  data : List RowRecord

/-- Embedding of the `complete` callback of lines 179-186 of App.js:
when the parser reports any error, only set the error message; otherwise
start the batch. -/
def onParseComplete (step : Template → RowRecord → Except String (List Nat))
    (s : AppState) (results : ParseResults) : AppState :=
  if results.errors.length > 0 then
    { s with error := some ("Error parsing CSV: " ++ results.errors.headD "") }
  else
    processCsvData step s results.data

/-- The spec formulation of the kept state columns (used by the claims):
a column is kept when its name contains the substring States and its
value is non-empty after trimming. -/
def keepPair (p : String × String) : Bool :=
  jsIncludes p.1 "States" && (jsTruthy p.2 && jsTruthy (jsTrim p.2))

/-- Concrete template with the six named fields of the real PDF
template, used by the witnesses. -/
def exT : Template :=
  { fields := [("Client", ""), ("ProSystem\x27s #", ""), ("Tax Year", ""),
               ("Return Type", ""), ("File Directory", ""), ("States", "")],
    pages := [0] }

/-- Concrete row from the example of spec section 8, used by the
witnesses. -/
def exRow : RowRecord :=
  [("Client", "Acme"), ("Tax Year", "2023"),
   ("States_A", "CA"), ("States_B", "")]

/-- Concrete app state with the template loaded, used by the
witnesses. -/
def exS : AppState :=
  { processing := false, error := none, completedPdf := none,
    templatePdf := some exT, processedCount := 0 }

/-- Concrete per-row step that throws exactly on the empty row, used to
witness the abort semantics. -/
def stepW : Template → RowRecord → Except String (List Nat) :=
  fun _ r => if r.isEmpty then Except.error "boom" else Except.ok [7]

/-- Concrete template missing the Tax Year field, used to witness the
missing-field warning. -/
def exT5 : Template :=
  { fields := [("Client", ""), ("States", "")], pages := [0] }

/-- Concrete one-column row whose kept States value carries leading and
trailing whitespace. -/
def exRowWS : RowRecord := [("States", " CA ")]

/-- Concrete parse result carrying one parser error. -/
def exResults : ParseResults :=
  { errors := ["Too many fields"], data := [exRow] }

/-! ### Helper lemmas: field update and lookup -/

theorem updField_fst (n v : String) (p : String × String) :
    (updField n v p).1 = p.1 := by
  unfold updField; split <;> rfl

theorem map_fst_upd (n v : String) (l : List (String × String)) :
    (l.map (updField n v)).map Prod.fst = l.map Prod.fst := by
  induction l with
  | nil => rfl
  | cons p t ih => simp [List.map_cons, updField_fst, ih]

theorem find?_pair_cons_pos {g : String} (q : String × String)
    (l : List (String × String)) (h : (q.1 == g) = true) :
    List.find? (fun p => p.1 == g) (q :: l) = some q :=
  List.find?_cons_of_pos _ h

theorem find?_pair_cons_neg {g : String} (q : String × String)
    (l : List (String × String)) (h : (q.1 == g) = false) :
    List.find? (fun p => p.1 == g) (q :: l) = List.find? (fun p => p.1 == g) l :=
  List.find?_cons_of_neg _ (by simp [h])

theorem getField_upd_self (n v : String) (l : List (String × String))
    (hmem : n ∈ l.map Prod.fst) :
    ((l.map (updField n v)).find? (fun p => p.1 == n)).map Prod.snd = some v := by
  induction l with
  | nil => simp at hmem
  | cons p t ih =>
    by_cases hp : p.1 = n
    · have h1 : ((updField n v p).1 == n) = true := by
        rw [updField_fst]; exact beq_iff_eq.mpr hp
      rw [List.map_cons, find?_pair_cons_pos _ _ h1]
      simp [updField, hp]
    · have h1 : ((updField n v p).1 == n) = false := by
        rw [updField_fst]; exact beq_eq_false_iff_ne.mpr hp
      rw [List.map_cons, find?_pair_cons_neg _ _ h1]
      apply ih
      rcases List.mem_cons.mp hmem with h | h
      · exact absurd h.symm hp
      · exact h

theorem getField_upd_ne (n v g : String) (l : List (String × String))
    (h : g ≠ n) :
    ((l.map (updField n v)).find? (fun p => p.1 == g)).map Prod.snd
      = (l.find? (fun p => p.1 == g)).map Prod.snd := by
  induction l with
  | nil => rfl
  | cons p t ih =>
    by_cases hp : p.1 = g
    · have h1 : ((updField n v p).1 == g) = true := by
        rw [updField_fst]; exact beq_iff_eq.mpr hp
      rw [List.map_cons, find?_pair_cons_pos _ _ h1,
          find?_pair_cons_pos _ _ (beq_iff_eq.mpr hp)]
      have hpn : ¬ p.1 = n := fun hh => h (hp ▸ hh ▸ rfl)
      simp [updField, hpn]
    · have h1 : ((updField n v p).1 == g) = false := by
        rw [updField_fst]; exact beq_eq_false_iff_ne.mpr hp
      rw [List.map_cons, find?_pair_cons_neg _ _ h1,
          find?_pair_cons_neg _ _ (beq_eq_false_iff_ne.mpr hp)]
      exact ih

theorem mem_fst_iff_any (n : String) (l : List (String × String)) :
    n ∈ l.map Prod.fst ↔ l.any (fun p => p.1 == n) = true := by
  simp [List.any_eq_true, List.mem_map, beq_iff_eq]

theorem setTextField_of_mem {d : Doc} {n : String} (v : String)
    (h : n ∈ d.fields.map Prod.fst) :
    setTextField d n v = ({ d with fields := d.fields.map (updField n v) }, true) := by
  unfold setTextField
  rw [if_pos ((mem_fst_iff_any n d.fields).mp h)]

theorem setTextField_of_not_mem {d : Doc} {n : String} (v : String)
    (h : n ∉ d.fields.map Prod.fst) :
    setTextField d n v = (d, false) := by
  unfold setTextField
  rw [if_neg (fun hc => h ((mem_fst_iff_any n d.fields).mpr hc))]

theorem setTextField_fst_names (d : Doc) (n v : String) :
    (setTextField d n v).1.fields.map Prod.fst = d.fields.map Prod.fst := by
  unfold setTextField
  split
  · exact map_fst_upd n v d.fields
  · rfl

theorem setTextField_pages (d : Doc) (n v : String) :
    (setTextField d n v).1.pages = d.pages := by
  unfold setTextField; split <;> rfl

theorem getFieldValue_set_self {d : Doc} {n : String} (v : String)
    (h : n ∈ d.fields.map Prod.fst) :
    getFieldValue (setTextField d n v).1 n = some v := by
  rw [setTextField_of_mem v h]
  exact getField_upd_self n v d.fields h

theorem getFieldValue_set_ne {d : Doc} {n g : String} (v : String)
    (h : g ≠ n) :
    getFieldValue (setTextField d n v).1 g = getFieldValue d g := by
  unfold setTextField
  split
  · exact getField_upd_ne n v g d.fields h
  · rfl

/-! ### Helper lemmas: the mapped-fields fold -/

/-- Document component of the mapped-fields loop, warnings dropped. -/
def docFold (row : RowRecord) (ms : List (String × String)) (d : Doc) : Doc :=
  ms.foldl (fun d cp => (setTextField d cp.2 (jsOrEmpty (lookupCol row cp.1))).1) d

theorem docFold_nil (row : RowRecord) (d : Doc) : docFold row [] d = d := rfl

theorem docFold_cons (row : RowRecord) (cp : String × String)
    (ms : List (String × String)) (d : Doc) :
    docFold row (cp :: ms) d
      = docFold row ms (setTextField d cp.2 (jsOrEmpty (lookupCol row cp.1))).1 := rfl

theorem docFold_names (row : RowRecord) (ms : List (String × String)) (d : Doc) :
    (docFold row ms d).fields.map Prod.fst = d.fields.map Prod.fst := by
  induction ms generalizing d with
  | nil => rfl
  | cons cp ms ih => rw [docFold_cons, ih, setTextField_fst_names]

theorem docFold_pages (row : RowRecord) (ms : List (String × String)) (d : Doc) :
    (docFold row ms d).pages = d.pages := by
  induction ms generalizing d with
  | nil => rfl
  | cons cp ms ih => rw [docFold_cons, ih, setTextField_pages]

theorem docFold_get_notin {row : RowRecord} {ms : List (String × String)}
    {d : Doc} {g : String} (h : g ∉ ms.map Prod.snd) :
    getFieldValue (docFold row ms d) g = getFieldValue d g := by
  induction ms generalizing d with
  | nil => rfl
  | cons cp ms ih =>
    rw [List.map_cons] at h
    rw [docFold_cons, ih (fun hc => h (List.mem_cons_of_mem _ hc)),
        getFieldValue_set_ne _ (fun hc => h (by rw [hc]; exact List.mem_cons_self _ _))]

theorem docFold_get_mem {row : RowRecord} {ms : List (String × String)}
    {d : Doc} {c p : String} (hnd : (ms.map Prod.snd).Nodup)
    (hmem : (c, p) ∈ ms) (hpres : p ∈ d.fields.map Prod.fst) :
    getFieldValue (docFold row ms d) p = some (jsOrEmpty (lookupCol row c)) := by
  induction ms generalizing d with
  | nil => cases hmem
  | cons cp ms ih =>
    rw [List.map_cons] at hnd
    rw [docFold_cons]
    rcases List.mem_cons.mp hmem with heq | hm
    · subst heq
      have hnotin : p ∉ ms.map Prod.snd := (List.nodup_cons.mp hnd).1
      rw [docFold_get_notin hnotin]
      exact getFieldValue_set_self _ hpres
    · exact ih (List.nodup_cons.mp hnd).2 hm
        (by rw [setTextField_fst_names]; exact hpres)

theorem foldl_fillMapped_fst (row : RowRecord) :
    ∀ (ms : List (String × String)) (d : Doc) (ws : List String),
      (ms.foldl (fillMappedStep row) (d, ws)).1 = docFold row ms d := by
  intro ms
  induction ms with
  | nil => intro d ws; rfl
  | cons cp ms ih =>
    intro d ws
    rw [List.foldl_cons, docFold_cons]
    exact ih _ _

theorem foldl_fillMapped_warn_mono (row : RowRecord) (x : String) :
    ∀ (ms : List (String × String)) (d : Doc) (ws : List String),
      x ∈ ws → x ∈ (ms.foldl (fillMappedStep row) (d, ws)).2 := by
  intro ms
  induction ms with
  | nil => intro d ws hx; exact hx
  | cons cp ms ih =>
    intro d ws hx
    rw [List.foldl_cons]
    have hstep : fillMappedStep row (d, ws) cp
        = ((setTextField d cp.2 (jsOrEmpty (lookupCol row cp.1))).1,
           if (setTextField d cp.2 (jsOrEmpty (lookupCol row cp.1))).2 then ws
           else ws ++ [cp.2]) := rfl
    rw [hstep]
    by_cases hc : (setTextField d cp.2 (jsOrEmpty (lookupCol row cp.1))).2 = true
    · rw [if_pos hc]; exact ih _ _ hx
    · rw [if_neg hc]; exact ih _ _ (List.mem_append_left _ hx)

theorem foldl_fillMapped_warn_absent (row : RowRecord) :
    ∀ (ms : List (String × String)) (d : Doc) (ws : List String)
      (c p : String), (c, p) ∈ ms → p ∉ d.fields.map Prod.fst →
      p ∈ (ms.foldl (fillMappedStep row) (d, ws)).2 := by
  intro ms
  induction ms with
  | nil => intro d ws c p hmem _; cases hmem
  | cons cp ms ih =>
    intro d ws c p hmem habs
    rw [List.foldl_cons]
    rcases List.mem_cons.mp hmem with heq | hm
    · subst heq
      have hset : setTextField d (c, p).2 (jsOrEmpty (lookupCol row (c, p).1))
          = (d, false) := setTextField_of_not_mem _ habs
      have hstep : fillMappedStep row (d, ws) (c, p) = (d, ws ++ [p]) := by
        unfold fillMappedStep
        rw [hset]
        rfl
      rw [hstep]
      exact foldl_fillMapped_warn_mono row p ms d (ws ++ [p])
        (List.mem_append_right _ (List.mem_singleton.mpr rfl))
    · have hstep : fillMappedStep row (d, ws) cp
          = ((setTextField d cp.2 (jsOrEmpty (lookupCol row cp.1))).1,
             if (setTextField d cp.2 (jsOrEmpty (lookupCol row cp.1))).2 then ws
             else ws ++ [cp.2]) := rfl
      rw [hstep]
      exact ih _ _ c p hm (by rw [setTextField_fst_names]; exact habs)

/-! ### Helper lemmas: fillPdfForm -/

theorem fields_flattened (d : Doc) (b : Bool) :
    ({ d with flattened := b } : Doc).fields = d.fields := rfl

theorem pages_flattened (d : Doc) (b : Bool) :
    ({ d with flattened := b } : Doc).pages = d.pages := rfl

theorem getFieldValue_flattened (d : Doc) (b : Bool) (n : String) :
    getFieldValue { d with flattened := b } n = getFieldValue d n := rfl

theorem fillPdfForm_fst (t : Template) (row : RowRecord) :
    (fillPdfForm t row).1
      = { (setTextField (mappedPhase t row).1 "States" (statesText row)).1 with
          flattened := true } := rfl

theorem fillPdfForm_snd (t : Template) (row : RowRecord) :
    (fillPdfForm t row).2
      = if (setTextField (mappedPhase t row).1 "States" (statesText row)).2 then
          (mappedPhase t row).2
        else (mappedPhase t row).2 ++ ["States"] := rfl

theorem mappedPhase_fst (t : Template) (row : RowRecord) :
    (mappedPhase t row).1
      = docFold row fieldMappings { fields := t.fields, pages := t.pages, flattened := false } :=
  foldl_fillMapped_fst row fieldMappings { fields := t.fields, pages := t.pages, flattened := false } []

theorem fill_fst_names (t : Template) (row : RowRecord) :
    (fillPdfForm t row).1.fields.map Prod.fst = t.fields.map Prod.fst := by
  rw [fillPdfForm_fst, fields_flattened, setTextField_fst_names, mappedPhase_fst,
      docFold_names]

theorem fill_pages (t : Template) (row : RowRecord) :
    (fillPdfForm t row).1.pages = t.pages := by
  rw [fillPdfForm_fst, pages_flattened, setTextField_pages, mappedPhase_fst,
      docFold_pages]

theorem fill_get_states (t : Template) (row : RowRecord)
    (hS : "States" ∈ t.fields.map Prod.fst) :
    getFieldValue (fillPdfForm t row).1 "States" = some (statesText row) := by
  rw [fillPdfForm_fst, getFieldValue_flattened]
  apply getFieldValue_set_self
  rw [mappedPhase_fst, docFold_names]
  exact hS

theorem fill_get_mapped (t : Template) (row : RowRecord) (c p : String)
    (hmem : (c, p) ∈ fieldMappings) (hp : p ∈ t.fields.map Prod.fst) :
    getFieldValue (fillPdfForm t row).1 p = some (jsOrEmpty (lookupCol row c)) := by
  have hne : p ≠ "States" := by
    have hall : ∀ q ∈ fieldMappings, q.2 ≠ "States" := by decide
    exact hall (c, p) hmem
  rw [fillPdfForm_fst, getFieldValue_flattened, getFieldValue_set_ne _ hne,
      mappedPhase_fst]
  exact docFold_get_mem (by decide) hmem hp

theorem fill_warn (t : Template) (row : RowRecord) (g : String)
    (hg : g ∈ fieldMappings.map Prod.snd ++ ["States"])
    (habs : g ∉ t.fields.map Prod.fst) :
    g ∈ (fillPdfForm t row).2 := by
  rw [fillPdfForm_snd]
  rcases List.mem_append.mp hg with h5 | hS
  · obtain ⟨cp, hcp, hcp2⟩ := List.mem_map.mp h5
    have hmem : (cp.1, g) ∈ fieldMappings := by
      rw [← hcp2]
      exact hcp
    have hw : g ∈ (mappedPhase t row).2 :=
      foldl_fillMapped_warn_absent row fieldMappings _ [] cp.1 g hmem habs
    by_cases hc : (setTextField (mappedPhase t row).1 "States" (statesText row)).2 = true
    · rw [if_pos hc]; exact hw
    · rw [if_neg hc]; exact List.mem_append_left _ hw
  · have hg' : g = "States" := by simpa using hS
    subst hg'
    have hnot : "States" ∉ (mappedPhase t row).1.fields.map Prod.fst := by
      rw [mappedPhase_fst, docFold_names]; exact habs
    have hset : setTextField (mappedPhase t row).1 "States" (statesText row)
        = ((mappedPhase t row).1, false) := setTextField_of_not_mem _ hnot
    rw [hset]
    exact List.mem_append_right _ (List.mem_singleton.mpr rfl)

/-! ### Helper lemmas: the States aggregation -/

theorem filterCongr {α : Type} (p q : α → Bool) :
    ∀ (l : List α), (∀ a ∈ l, p a = q a) → l.filter p = l.filter q := by
  intro l
  induction l with
  | nil => intro _; rfl
  | cons a t ih =>
    intro h
    rw [List.filter_cons, List.filter_cons, h a (List.mem_cons_self a t),
        ih (fun b hb => h b (List.mem_cons_of_mem _ hb))]

theorem filterMapCongr {α β : Type} (f g : α → Option β) :
    ∀ (l : List α), (∀ a ∈ l, f a = g a) → l.filterMap f = l.filterMap g := by
  intro l
  induction l with
  | nil => intro _; rfl
  | cons a t ih =>
    intro h
    rw [List.filterMap_cons, List.filterMap_cons, h a (List.mem_cons_self a t),
        ih (fun b hb => h b (List.mem_cons_of_mem _ hb))]

theorem lookupCol_cons_self (k v : String) (rs : RowRecord) :
    lookupCol ((k, v) :: rs) k = some v := by
  unfold lookupCol
  rw [find?_pair_cons_pos _ _ (by simp)]
  rfl

theorem lookupCol_cons_ne (k v w : String) (rs : RowRecord) (h : w ≠ k) :
    lookupCol ((k, v) :: rs) w = lookupCol rs w := by
  unfold lookupCol
  rw [find?_pair_cons_neg _ _ (beq_eq_false_iff_ne.mpr (fun hh => h hh.symm))]

theorem stateKeep_congr (row rs : RowRecord) (k : String)
    (h : lookupCol row k = lookupCol rs k) : stateKeep row k = stateKeep rs k := by
  unfold stateKeep
  rw [h]

theorem stateValue?_congr (row rs : RowRecord) (k : String)
    (h : lookupCol row k = lookupCol rs k) : stateValue? row k = stateValue? rs k := by
  unfold stateValue?
  rw [h]

theorem stateKeep_head (k v : String) (rs : RowRecord) :
    stateKeep ((k, v) :: rs) k = keepPair (k, v) := by
  unfold stateKeep keepPair
  rw [lookupCol_cons_self]

theorem stateValues_cons (k v : String) (rs : RowRecord)
    (hk : k ∉ rs.map Prod.fst) :
    stateValues ((k, v) :: rs)
      = (if keepPair (k, v) then [v] else []) ++ stateValues rs := by
  have hlook : ∀ w ∈ rs.map Prod.fst, lookupCol ((k, v) :: rs) w = lookupCol rs w := by
    intro w hw
    exact lookupCol_cons_ne k v w rs (fun hh => hk (hh ▸ hw))
  have hkeys : (rs.map Prod.fst).filter (stateKeep ((k, v) :: rs))
      = (rs.map Prod.fst).filter (stateKeep rs) :=
    filterCongr _ _ _ (fun w hw => stateKeep_congr _ _ w (hlook w hw))
  have htail : ((rs.map Prod.fst).filter (stateKeep rs)).filterMap (stateValue? ((k, v) :: rs))
      = stateValues rs := by
    unfold stateValues stateFields
    exact filterMapCongr _ _ _ (fun w hw =>
      stateValue?_congr _ _ w (hlook w (List.mem_of_mem_filter hw)))
  unfold stateValues stateFields
  rw [List.map_cons, List.filter_cons, stateKeep_head, hkeys]
  by_cases hkeep : keepPair (k, v) = true
  · have hv1 : jsTruthy v = true := by
      have h2 := hkeep
      unfold keepPair at h2
      rw [Bool.and_eq_true, Bool.and_eq_true] at h2
      exact h2.2.1
    have hvne : (v == "") = false := by
      have h3 : v ≠ "" := by simpa [jsTruthy] using hv1
      exact beq_eq_false_iff_ne.mpr h3
    have hv : stateValue? ((k, v) :: rs) k = some v := by
      simp [stateValue?, lookupCol_cons_self, hvne]
    rw [if_pos hkeep, if_pos hkeep]
    simp only [List.filterMap_cons, hv]
    rw [htail]
    rfl
  · rw [if_neg hkeep, if_neg hkeep, htail]
    rfl

theorem stateValues_spec : ∀ (row : RowRecord), (row.map Prod.fst).Nodup →
    stateValues row = (row.filter keepPair).map Prod.snd := by
  intro row
  induction row with
  | nil => intro _; rfl
  | cons pr rs ih =>
    intro hnd
    obtain ⟨k, v⟩ := pr
    rw [List.map_cons] at hnd
    have hk : k ∉ rs.map Prod.fst := (List.nodup_cons.mp hnd).1
    have hnd2 : (rs.map Prod.fst).Nodup := (List.nodup_cons.mp hnd).2
    rw [stateValues_cons k v rs hk, ih hnd2, List.filter_cons]
    by_cases hkeep : keepPair (k, v) = true
    · rw [if_pos hkeep, if_pos hkeep, List.map_cons]
      rfl
    · rw [if_neg hkeep, if_neg hkeep]
      rfl

/-! ### Helper lemmas: the batch loop -/

theorem runRows_nil (step : RowRecord → Except String (List Nat))
    (acc : List Nat) (n : Nat) : runRows step [] acc n = .ok acc n := rfl

theorem runRows_cons_ok (step : RowRecord → Except String (List Nat))
    (r : RowRecord) (rs : List RowRecord) (acc : List Nat) (n : Nat)
    (ps : List Nat) (h : step r = .ok ps) :
    runRows step (r :: rs) acc n = runRows step rs (acc ++ ps) (n + 1) := by
  show (match step r with
        | .ok ps => runRows step rs (acc ++ ps) (n + 1)
        | .error e => BatchOutcome.failed e n) = _
  rw [h]

theorem runRows_cons_err (step : RowRecord → Except String (List Nat))
    (r : RowRecord) (rs : List RowRecord) (acc : List Nat) (n : Nat)
    (e : String) (h : step r = .error e) :
    runRows step (r :: rs) acc n = .failed e n := by
  unfold runRows
  rw [h]

theorem runRows_all_ok (step : RowRecord → Except String (List Nat))
    (f : RowRecord → List Nat) :
    ∀ (rows : List RowRecord) (acc : List Nat) (n : Nat),
      (∀ r ∈ rows, step r = .ok (f r)) →
      runRows step rows acc n = .ok (acc ++ (rows.map f).flatten) (n + rows.length) := by
  intro rows
  induction rows with
  | nil =>
    intro acc n _
    rw [runRows_nil]
    simp
  | cons r rows ih =>
    intro acc n hall
    rw [runRows_cons_ok _ _ _ _ _ _ (hall r (List.mem_cons_self _ _)),
        ih (acc ++ f r) (n + 1) (fun x hx => hall x (List.mem_cons_of_mem _ hx))]
    have e1 : (acc ++ f r) ++ (rows.map f).flatten = acc ++ ((r :: rows).map f).flatten := by
      rw [List.map_cons, List.flatten_cons, List.append_assoc]
    have e2 : n + 1 + rows.length = n + (r :: rows).length := by
      rw [List.length_cons]; omega
    rw [e1, e2]

theorem runRows_fail (step : RowRecord → Except String (List Nat)) :
    ∀ (pre : List RowRecord) (r : RowRecord) (post : List RowRecord)
      (acc : List Nat) (n : Nat) (e : String),
      (∀ x ∈ pre, ∃ ps, step x = .ok ps) → step r = .error e →
      runRows step (pre ++ r :: post) acc n = .failed e (n + pre.length) := by
  intro pre
  induction pre with
  | nil =>
    intro r post acc n e _ hr
    rw [List.nil_append, runRows_cons_err _ _ _ _ _ _ hr]
    simp
  | cons x pre ih =>
    intro r post acc n e hpre hr
    obtain ⟨ps, hps⟩ := hpre x (List.mem_cons_self _ _)
    rw [List.cons_append, runRows_cons_ok _ _ _ _ _ _ hps,
        ih r post (acc ++ ps) (n + 1) e (fun y hy => hpre y (List.mem_cons_of_mem _ hy)) hr]
    have e2 : n + 1 + pre.length = n + (x :: pre).length := by
      rw [List.length_cons]; omega
    rw [e2]

theorem processCsvData_none (step : Template → RowRecord → Except String (List Nat))
    (s : AppState) (csvData : List RowRecord) (h : s.templatePdf = none) :
    processCsvData step s csvData
      = { s with processing := false,
                 error := some "PDF template not loaded. Please reload the page.",
                 completedPdf := none, processedCount := 0 } := by
  unfold processCsvData
  rw [h]

theorem processCsvData_some (step : Template → RowRecord → Except String (List Nat))
    (s : AppState) (csvData : List RowRecord) (t : Template)
    (h : s.templatePdf = some t) :
    processCsvData step s csvData
      = (match runRows (step t) csvData [] 0 with
         | .ok pages n =>
           { s with processing := false, error := none,
                    completedPdf := some pages, processedCount := n }
         | .failed e n =>
           { s with processing := false,
                    error := some ("Failed to process CSV data: " ++ e),
                    completedPdf := none, processedCount := n }) := by
  unfold processCsvData
  rw [h]

/-! ### Claim theorems -/

/-- Claim C1: for every RowRecord, the value assigned to the States
template field equals the values of exactly those columns whose name
contains the substring States and whose value is non-empty after
trimming, joined in column order with a comma-and-space separator; when
no such column is non-empty the assigned value is the empty string. -/
theorem states_field_assignment (t : Template) (row : RowRecord)
    (hS : "States" ∈ t.fields.map Prod.fst)
    (hnd : (row.map Prod.fst).Nodup) :
    getFieldValue (fillPdfForm t row).1 "States"
      = some (joinComma ((row.filter keepPair).map Prod.snd)) ∧
    ((∀ p ∈ row, keepPair p = false) →
      getFieldValue (fillPdfForm t row).1 "States" = some "") := by
  have h1 : getFieldValue (fillPdfForm t row).1 "States" = some (statesText row) :=
    fill_get_states t row hS
  have h2 : statesText row = joinComma ((row.filter keepPair).map Prod.snd) := by
    unfold statesText
    rw [stateValues_spec row hnd]
  constructor
  · rw [h1, h2]
  · intro hall
    have hnil : row.filter keepPair = [] :=
      List.filter_eq_nil_iff.mpr (fun p hp => by simp [hall p hp])
    rw [h1, h2, hnil]
    rfl

/-- Witness for C1 at the example row of spec section 8. -/
theorem states_field_assignment_witness :
    getFieldValue (fillPdfForm exT exRow).1 "States"
      = some (joinComma ((exRow.filter keepPair).map Prod.snd)) ∧
    joinComma ((exRow.filter keepPair).map Prod.snd) = "CA" := by
  have h := states_field_assignment exT exRow (by decide) (by decide)
  exact ⟨h.1, by decide⟩

/-- Claim C2: for every RowRecord and each of the five correspondence
entries, the mapper assigns the value of the source column and assigns
the empty string exactly when that column is absent or empty; the
mapping is total. -/
theorem mapped_fields_assignment (t : Template) (row : RowRecord)
    (c p : String) (hm : (c, p) ∈ fieldMappings)
    (hp : p ∈ t.fields.map Prod.fst) :
    getFieldValue (fillPdfForm t row).1 p = some (jsOrEmpty (lookupCol row c)) ∧
    (jsOrEmpty (lookupCol row c) = ""
      ↔ (lookupCol row c = none ∨ lookupCol row c = some "")) ∧
    (∀ v, lookupCol row c = some v → v ≠ "" → jsOrEmpty (lookupCol row c) = v) := by
  refine ⟨fill_get_mapped t row c p hm hp, ?_, ?_⟩
  · cases hl : lookupCol row c with
    | none => simp [jsOrEmpty]
    | some v =>
      by_cases hv : v = ""
      · subst hv
        simp [jsOrEmpty]
      · simp [jsOrEmpty, beq_eq_false_iff_ne.mpr hv, hv]
  · intro v hl hv
    rw [hl]
    simp [jsOrEmpty, beq_eq_false_iff_ne.mpr hv]

/-- Witness for C2 at the Client entry of the example row. -/
theorem mapped_fields_assignment_witness :
    getFieldValue (fillPdfForm exT exRow).1 "Client"
      = some (jsOrEmpty (lookupCol exRow "Client")) ∧
    jsOrEmpty (lookupCol exRow "Client") = "Acme" := by
  have h := mapped_fields_assignment exT exRow "Client" "Client" (by decide) (by decide)
  exact ⟨h.1, by decide⟩

/-- Claim C3: if processing row i (1-indexed) fails fatally, the batch
produces no artifact, rows after i are never processed (the outcome
equals the outcome on the input truncated right after row i), and the
progress count is i-1. -/
theorem batch_abort_semantics
    (step : Template → RowRecord → Except String (List Nat))
    (s : AppState) (t : Template) (pre post : List RowRecord)
    (r : RowRecord) (e : String) (ht : s.templatePdf = some t)
    (hpre : ∀ x ∈ pre, ∃ ps, step t x = Except.ok ps)
    (hr : step t r = Except.error e) :
    (processCsvData step s (pre ++ r :: post)).completedPdf = none ∧
    (processCsvData step s (pre ++ r :: post)).processedCount = pre.length ∧
    processCsvData step s (pre ++ r :: post) = processCsvData step s (pre ++ [r]) := by
  have h1 : runRows (step t) (pre ++ r :: post) [] 0 = .failed e pre.length := by
    have h := runRows_fail (step t) pre r post [] 0 e hpre hr
    simpa using h
  have h2 : runRows (step t) (pre ++ [r]) [] 0 = .failed e pre.length := by
    have h := runRows_fail (step t) pre r [] [] 0 e hpre hr
    simpa using h
  rw [processCsvData_some step s (pre ++ r :: post) t ht,
      processCsvData_some step s (pre ++ [r]) t ht, h1, h2]
  exact ⟨rfl, rfl, rfl⟩

/-- Witness for C3: the second of three rows throws; the artifact stays
unset, the count is 1 and the third row is irrelevant. -/
theorem batch_abort_semantics_witness :
    (processCsvData stepW exS ([exRow] ++ ([] : RowRecord) :: [exRow])).completedPdf
      = none ∧
    (processCsvData stepW exS ([exRow] ++ ([] : RowRecord) :: [exRow])).processedCount
      = 1 ∧
    processCsvData stepW exS ([exRow] ++ ([] : RowRecord) :: [exRow])
      = processCsvData stepW exS ([exRow] ++ [([] : RowRecord)]) := by
  have h := batch_abort_semantics stepW exS exT [exRow] [exRow] ([] : RowRecord)
    "boom" rfl
    (by
      intro x hx
      simp at hx
      rw [hx]
      exact ⟨[7], rfl⟩)
    rfl
  exact ⟨h.1, h.2.1, h.2.2⟩

/-- Claim C4: when every row succeeds, the merged pages are the
concatenation, in row order, of the pages contributed per row, and the
page count is the sum of per-row page counts. -/
theorem merged_page_order
    (step : Template → RowRecord → Except String (List Nat))
    (s : AppState) (t : Template) (rows : List RowRecord)
    (f : RowRecord → List Nat) (ht : s.templatePdf = some t)
    (hall : ∀ r ∈ rows, step t r = Except.ok (f r)) :
    (processCsvData step s rows).completedPdf = some ((rows.map f).flatten) ∧
    (processCsvData step s rows).processedCount = rows.length ∧
    ((rows.map f).flatten).length = (rows.map (fun r => (f r).length)).sum := by
  have h1 : runRows (step t) rows [] 0 = .ok ((rows.map f).flatten) rows.length := by
    have h := runRows_all_ok (step t) f rows [] 0 hall
    simpa using h
  rw [processCsvData_some step s rows t ht, h1]
  refine ⟨rfl, rfl, ?_⟩
  rw [List.length_flatten, List.map_map]
  rfl

/-- Witness for C4 with two one-page rows. -/
theorem merged_page_order_witness :
    (processCsvData rowStep exS [exRow, exRow]).completedPdf = some [0, 0] ∧
    (processCsvData rowStep exS [exRow, exRow]).processedCount = 2 := by
  have h := merged_page_order rowStep exS exT [exRow, exRow] (fun _ => [0]) rfl
    (by
      intro r hr
      simp at hr
      rw [hr]
      rfl)
  exact ⟨h.1, h.2.1⟩

/-- Claim C5: a named template field that cannot be located yields a
recorded warning and does not fail the row: the per-row pipeline still
succeeds and every locatable field is still assigned its value. -/
theorem missing_field_nonfatal (t : Template) (row : RowRecord) (g : String)
    (hg : g ∈ fieldMappings.map Prod.snd ++ ["States"])
    (habs : g ∉ t.fields.map Prod.fst) :
    g ∈ (fillPdfForm t row).2 ∧
    rowStep t row = Except.ok ((fillPdfForm t row).1.pages) ∧
    (∀ c p, (c, p) ∈ fieldMappings → p ∈ t.fields.map Prod.fst →
      getFieldValue (fillPdfForm t row).1 p = some (jsOrEmpty (lookupCol row c))) ∧
    ("States" ∈ t.fields.map Prod.fst →
      getFieldValue (fillPdfForm t row).1 "States" = some (statesText row)) :=
  ⟨fill_warn t row g hg habs, rfl,
   fun c p hm hp => fill_get_mapped t row c p hm hp,
   fun hS => fill_get_states t row hS⟩

/-- Witness for C5 on a template missing the Tax Year field. -/
theorem missing_field_nonfatal_witness :
    "Tax Year" ∈ (fillPdfForm exT5 exRow).2 ∧
    rowStep exT5 exRow = Except.ok ((fillPdfForm exT5 exRow).1.pages) := by
  have h := missing_field_nonfatal exT5 exRow "Tax Year" (by decide) (by decide)
  exact ⟨h.1, h.2.1⟩

/-- Claim C6: filling the same RowRecord twice against the same template
yields documents with identical field values: the mapping is a pure
function of the template and the row. -/
theorem fill_deterministic (t : Template) (r1 r2 : RowRecord) (h : r1 = r2) :
    (fillPdfForm t r1).1.fields = (fillPdfForm t r2).1.fields := by
  rw [h]

/-- Witness for C6 at the example inputs. -/
theorem fill_deterministic_witness :
    (fillPdfForm exT exRow).1.fields = (fillPdfForm exT exRow).1.fields :=
  fill_deterministic exT exRow exRow rfl

/-- Claim C7: the template is never mutated by a batch run; each fill
works on a fresh instance, and the stored template state is unchanged
after processing any row sequence. -/
theorem template_not_mutated
    (step : Template → RowRecord → Except String (List Nat))
    (s : AppState) (rows : List RowRecord) :
    (processCsvData step s rows).templatePdf = s.templatePdf := by
  cases ht : s.templatePdf with
  | none =>
    rw [processCsvData_none step s rows ht]
    exact ht
  | some t =>
    rw [processCsvData_some step s rows t ht]
    cases hrr : runRows (step t) rows [] 0 with
    | ok pages n => exact ht
    | failed msg n => exact ht

/-- Claim C8: when the parser reports any error, the failure is surfaced
before any row processing: the batch state other than the error message
is untouched, so no row is processed and no artifact is produced. -/
theorem parse_error_no_batch
    (step : Template → RowRecord → Except String (List Nat))
    (s : AppState) (results : ParseResults) (h : results.errors ≠ []) :
    (onParseComplete step s results).completedPdf = s.completedPdf ∧
    (onParseComplete step s results).processedCount = s.processedCount ∧
    (onParseComplete step s results).processing = s.processing ∧
    (onParseComplete step s results).error
      = some ("Error parsing CSV: " ++ results.errors.headD "") := by
  have hpos : results.errors.length > 0 := List.length_pos.mpr h
  unfold onParseComplete
  rw [if_pos hpos]
  exact ⟨rfl, rfl, rfl, rfl⟩

/-- Witness for C8 at a one-error parse result. -/
theorem parse_error_no_batch_witness :
    (onParseComplete rowStep exS exResults).completedPdf = exS.completedPdf ∧
    (onParseComplete rowStep exS exResults).processedCount = exS.processedCount ∧
    (onParseComplete rowStep exS exResults).processing = exS.processing ∧
    (onParseComplete rowStep exS exResults).error
      = some "Error parsing CSV: Too many fields" := by
  have h := parse_error_no_batch rowStep exS exResults (by decide)
  exact ⟨h.1, h.2.1, h.2.2.1, h.2.2.2⟩

/-- Claim C9: on the empty row sequence the batch succeeds: the merged
artifact is published with zero pages, the progress count is 0 and no
error is recorded. -/
theorem empty_batch_ok
    (step : Template → RowRecord → Except String (List Nat))
    (s : AppState) (t : Template) (ht : s.templatePdf = some t) :
    (processCsvData step s []).completedPdf = some [] ∧
    (processCsvData step s []).processedCount = 0 ∧
    (processCsvData step s []).error = none := by
  rw [processCsvData_some step s [] t ht]
  exact ⟨rfl, rfl, rfl⟩

/-- Witness for C9. -/
theorem empty_batch_ok_witness :
    (processCsvData rowStep exS []).completedPdf = some [] ∧
    (processCsvData rowStep exS []).processedCount = 0 ∧
    (processCsvData rowStep exS []).error = none :=
  empty_batch_ok rowStep exS exT rfl

/-- Claim C10: trimming only decides whether a States value is kept; the
joined values are the original untrimmed column values. -/
theorem states_values_untrimmed (row : RowRecord)
    (hnd : (row.map Prod.fst).Nodup) :
    stateValues row = (row.filter keepPair).map Prod.snd ∧
    (∀ p ∈ row, keepPair p = true → p.2 ∈ stateValues row) := by
  have h1 := stateValues_spec row hnd
  refine ⟨h1, ?_⟩
  intro p hp hkeep
  rw [h1]
  exact List.mem_map.mpr ⟨p, List.mem_filter.mpr ⟨hp, hkeep⟩, rfl⟩

/-- Witness for C10: a kept value with surrounding whitespace survives
verbatim. -/
theorem states_values_untrimmed_witness :
    stateValues exRowWS = (exRowWS.filter keepPair).map Prod.snd ∧
    stateValues exRowWS = [" CA "] := by
  have h := states_values_untrimmed exRowWS (by decide)
  exact ⟨h.1, by decide⟩
